import Mathlib

/-
  Verification of the per-connection protocol engine of the sample mining
  pool server (src/src/sample_pool.rs).

  The engine is embedded shallowly: the per-connection state machine, the
  coinbase policy, the weak-block delta reconstruction, and the difficulty
  controller are translated from the Rust source into executable Lean
  functions.  Byte strings are lists of naturals (each < 256 in practice);
  the bitcoin / crypto library primitives used by the source (transaction
  deserialization, txid, SHA-256, block-header hashing) are external crates,
  not part of this repository, and are supplied as explicit function
  parameters in an environment record.  The helpers from utils.rs (which is
  referenced by sample_pool.rs but not present under src/) are modelled from
  the specification text.
-/

set_option maxRecDepth 10000

namespace MiningPool

/-- Byte strings are modelled as lists of naturals. -/
abbrev Bytes := List Nat

/-- Constant MIN_TARGET_LEADING_0S from sample_pool.rs (line 70). -/
def MIN_TARGET_LEADING_0S : Nat := 47

/-- Constant WEAK_BLOCK_RATIO_0S from sample_pool.rs (line 71). -/
def WEAK_BLOCK_RATIO_0S : Nat := 8

/-- Constant MAX_USER_SHARES_PER_30_SEC from sample_pool.rs (line 72). -/
def MAX_USER_SHARES_PER_30_SEC : Nat := 30

/-- Constant MIN_USER_SHARES_PER_30_SEC from sample_pool.rs (line 73). -/
def MIN_USER_SHARES_PER_30_SEC : Nat := 1

/-- Constant MAX_TARGET_LEADING_0S = 71 - WEAK_BLOCK_RATIO_0S from sample_pool.rs (line 76). -/
def MAX_TARGET_LEADING_0S : Nat := 71 - WEAK_BLOCK_RATIO_0S

/-- Number of leading zero bits of a single byte (value < 256). -/
def byte_leading_zeros (b : Nat) : Nat :=
  if 128 ≤ b then 0
  else if 64 ≤ b then 1
  else if 32 ≤ b then 2
  else if 16 ≤ b then 3
  else if 8 ≤ b then 4
  else if 4 ≤ b then 5
  else if 2 ≤ b then 6
  else if 1 ≤ b then 7
  else 8

/-- Modelled from the spec: utils.rs is not under src/.  The leading-zero
count of a big-endian byte string ("leading-zero count z" of section 3). -/
def count_leading_zeros : Bytes → Nat
  | [] => 0
  | b :: rest => if b = 0 then 8 + count_leading_zeros rest else byte_leading_zeros b

/-- Modelled from the spec: utils.rs is not under src/.  "Conversion
leading_zeros_to_target(z) returns the maximum 32-byte value whose binary
representation begins with exactly z zero bits." -/
def leading_0s_to_target (z : Nat) : Bytes :=
  (List.range 32).map fun i =>
    if 8 * (i + 1) ≤ z then 0
    else if 8 * i ≤ z then 2 ^ (8 * (i + 1) - z) - 1
    else 255

/-- Modelled from the spec: utils.rs is not under src/.  Decode a byte
slice as a little-endian unsigned integer ("the last 8 bytes encode the
client_id as little-endian u64"). -/
def slice_to_le64 (l : Bytes) : Nat :=
  l.foldr (fun b acc => b + 256 * acc) 0

/-- Modelled from the spec: utils.rs is not under src/.  The 8-byte
little-endian encoding of a client id ("le64(client_id)"). -/
def le64_to_array (v : Nat) : Bytes :=
  (List.range 8).map fun i => v / 256 ^ i % 256

/-- A transaction output, as accessed by sample_pool.rs (value, script_pubkey). -/
structure TxOut where
  value : Nat
  script_pubkey : Bytes
  deriving DecidableEq, Repr

/-- A transaction input, as accessed by sample_pool.rs (script_sig). -/
structure TxIn where
  script_sig : Bytes
  deriving DecidableEq, Repr

/-- A (deserialized) bitcoin transaction, restricted to the fields the
pool server inspects. -/
structure Transaction where
  input : List TxIn
  output : List TxOut
  deriving DecidableEq, Repr

/-- The block header assembled by the Share / WeakBlock handlers before
hashing (sample_pool.rs lines 525-532 and 591-598). -/
structure BlockHeader where
  version : Nat
  prev_blockhash : Bytes
  merkle_root : Bytes
  time : Nat
  bits : Nat
  nonce : Nat
  deriving DecidableEq, Repr

/-- Rejection reasons visible on the wire. -/
inductive ShareRejectedReason where
  | BadHash
  | BadWork
  | BadPayoutInfo
  deriving DecidableEq, Repr

/-- Payload of a UserAuth message. -/
structure UserAuthInfo where
  user_id : Bytes
  user_auth : Bytes
  suggested_target : Bytes
  minimum_target : Bytes
  deriving DecidableEq, Repr

/-- Payload of a Share message. -/
structure ShareMsg where
  header_version : Nat
  header_prevblock : Bytes
  header_time : Nat
  header_nbits : Nat
  header_nonce : Nat
  merkle_rhss : List Bytes
  coinbase_tx : Transaction
  user_tag_1 : Bytes
  user_tag_2 : Bytes
  deriving DecidableEq, Repr

/-- One action of a weak-block delta sketch. -/
inductive WeakBlockAction where
  | TakeTx (n : Nat)
  | NewTx (tx : Bytes)
  deriving DecidableEq, Repr

/-- Payload of a WeakBlock message. -/
structure WeakBlockSketch where
  header_version : Nat
  header_prevblock : Bytes
  header_time : Nat
  header_nbits : Nat
  header_nonce : Nat
  merkle_rhss : List Bytes
  txn : List WeakBlockAction
  user_tag_1 : Bytes
  user_tag_2 : Bytes
  extra_block_data : Bytes
  deriving DecidableEq, Repr

/-- Per-user state (struct PerUserClientRef in sample_pool.rs, lines 78-85);
the atomics become plain naturals in the sequential embedding, and the
send_stream handle is represented by the handler outputs instead. -/
structure PerUser where
  client_id : Nat
  user_id : Bytes
  min_target : Nat
  cur_target : Nat
  accepted_shares : Nat
  deriving DecidableEq, Repr

/-- Per-connection state of the engine (the local mutable variables of the
connection closure in sample_pool.rs, lines 280-284). -/
structure ConnState where
  client_version : Option Nat
  max_client_id : Nat
  connection_clients : List (Bytes × PerUser)
  client_ids : List (Nat × Bytes)
  last_weak_block : Option (List Bytes)
  deriving DecidableEq, Repr

/-- Outbound messages produced by the engine (signatures and the auth key,
which come from the external secp256k1 crate, are omitted). -/
inductive OutMsg where
  | ProtocolVersion (selected_version flags : Nat)
  | PayoutInfo (timestamp : Nat) (remaining_payout : Bytes) (appended_outputs : List (Nat × Bytes))
  | AcceptUserAuth (user_id : Bytes) (timestamp : Nat) (coinbase_suffix : Bytes)
  | RejectUserAuth (user_id : Bytes)
  | ShareDifficulty (user_id : Bytes) (timestamp : Nat) (share_target weak_block_target : Bytes)
  | ShareAccepted (user_tag_1 user_tag_2 : Bytes)
  | ShareRejected (user_tag_1 user_tag_2 : Bytes) (reason : ShareRejectedReason)
  | WeakBlockStateReset
  deriving DecidableEq, Repr

/-- Embedder side effects invoked by the engine (share_submitted and
weak_block_submitted in sample_pool.rs, lines 58-64). -/
inductive Event where
  | shareSubmitted (user_id user_tag_1 : Bytes) (value : Nat)
  | weakBlockSubmitted (user_id user_tag_1 : Bytes) (value : Nat) (txn : List Bytes) (extra_block_data : Bytes)
  deriving DecidableEq, Repr

/-- Inbound messages as delivered by the codec. -/
inductive PoolMessage where
  | ProtocolSupport (max_version min_version flags : Nat)
  | ProtocolVersion (selected_version flags : Nat)
  | UserAuth (info : UserAuthInfo)
  | PayoutInfo (timestamp : Nat)
  | AcceptUserAuth (user_id : Bytes)
  | RejectUserAuth (user_id : Bytes)
  | DropUser (user_id : Bytes)
  | ShareDifficulty (user_id : Bytes)
  | Share (share : ShareMsg)
  | WeakBlock (sketch : WeakBlockSketch)
  | WeakBlockStateReset
  | ShareAccepted (user_tag_1 user_tag_2 : Bytes)
  | ShareRejected (user_tag_1 user_tag_2 : Bytes)
  | NewPoolServer (host : Bytes)
  | VendorMessage (payload : Bytes)
  deriving DecidableEq, Repr

/-- Result of handling one inbound message: drop the connection (the Err
return of the closure), abort (an unwrap panic, unreachable under the map
coherence invariant), or continue with side effects, outbound messages in
emission order, and the successor state. -/
inductive HandlerResult where
  | drop
  | abort
  | ok (events : List Event) (msgs : List OutMsg) (st : ConnState)
  deriving DecidableEq, Repr

/-- The external collaborators of the connection engine: the pluggable auth
predicate (check_user_auth), the configured server id and payout script, and
the bitcoin / crypto crate primitives (transaction deserialization, txid,
SHA-256, block-header double-SHA-256). -/
structure Env where
  check_user_auth : Bytes → Bytes → Bool
  server_id : Bytes
  payout_script : Bytes
  deser : Bytes → Option Transaction
  txid : Transaction → Bytes
  sha256 : Bytes → Bytes
  headerHash : BlockHeader → Bytes
  timestamp : Nat

/-- Association-list lookup, modelling HashMap::get. -/
def alist_get {α β : Type} [DecidableEq α] (k : α) : List (α × β) → Option β
  | [] => none
  | (k', v) :: rest => if k' = k then some v else alist_get k rest

/-- Replace the value stored under a key, modelling an in-place update of
the entry (the Arc-stored atomics of a PerUserClientRef). -/
def alist_set {α β : Type} [DecidableEq α] (k : α) (v : β) (l : List (α × β)) : List (α × β) :=
  l.map fun p => if p.1 = k then (k, v) else p

/-- Remove the entry stored under a key, modelling HashMap::remove. -/
def alist_remove {α β : Type} [DecidableEq α] (k : α) (l : List (α × β)) : List (α × β) :=
  l.filter fun p => decide (p.1 ≠ k)

/-- List read with default, modelling Vec indexing. -/
def nthD {α : Type} (d : α) : List α → Nat → α
  | [], _ => d
  | a :: _, 0 => a
  | _ :: l, n + 1 => nthD d l n

/-- Replace the n-th element of a list, modelling Vec element assignment. -/
def setNth {α : Type} : List α → Nat → α → List α
  | [], _, _ => []
  | _ :: l, 0, v => v :: l
  | a :: l, n + 1, v => a :: setNth l n v

/-- The coinbase policy check (macro check_coinbase_tx in sample_pool.rs,
lines 308-351).  Returns (our_payout, user_id) on success; None corresponds
to a ShareRejected with reason BadPayoutInfo. -/
def check_coinbase_tx (client_ids : List (Nat × Bytes)) (payout_script : Bytes)
    (tx : Transaction) : Option (Nat × Bytes) :=
  if tx.input.length ≠ 1 ∨ tx.output.length < 1 then none
  else
    match tx.output with
    | [] => none
    | o0 :: rest =>
      if o0.script_pubkey ≠ payout_script then none
      else if rest.any (fun o => decide (o.value ≠ 0)) then none
      else
        match tx.input with
        | [i0] =>
          let coinbase := i0.script_sig
          if coinbase.length < 8 then none
          else
            match alist_get (slice_to_le64 (coinbase.drop (coinbase.length - 8))) client_ids with
            | none => none
            | some user_id => some (o0.value, user_id)
        | _ => none

/-- Merkle-root recomputation (sample_pool.rs lines 512-523 and 578-589):
starting from the coinbase leaf, fold each right-hand sibling with a double
SHA-256 of the concatenation. -/
def merkleFold (sha256 : Bytes → Bytes) (leaf : Bytes) (rhss : List Bytes) : Bytes :=
  rhss.foldl (fun acc rhs => sha256 (sha256 (acc ++ rhs))) leaf

/-- The block header a Share message hashes to. -/
def shareBlockHeader (env : Env) (share : ShareMsg) : BlockHeader :=
  { version := share.header_version
    prev_blockhash := share.header_prevblock
    merkle_root := merkleFold env.sha256 (env.txid share.coinbase_tx) share.merkle_rhss
    time := share.header_time
    bits := share.header_nbits
    nonce := share.header_nonce }

/-- Leading-zero count of the hash of a Share message's header. -/
def shareZ (env : Env) (share : ShareMsg) : Nat :=
  count_leading_zeros (env.headerHash (shareBlockHeader env share))

/-- The block header a WeakBlock sketch hashes to, given its deserialized
coinbase transaction. -/
def sketchBlockHeader (env : Env) (sketch : WeakBlockSketch) (cb : Transaction) : BlockHeader :=
  { version := sketch.header_version
    prev_blockhash := sketch.header_prevblock
    merkle_root := merkleFold env.sha256 (env.txid cb) sketch.merkle_rhss
    time := sketch.header_time
    bits := sketch.header_nbits
    nonce := sketch.header_nonce }

/-- Leading-zero count of the hash of a WeakBlock sketch's header. -/
def sketchZ (env : Env) (sketch : WeakBlockSketch) (cb : Transaction) : Nat :=
  count_leading_zeros (env.headerHash (sketchBlockHeader env sketch cb))

/-- The per-share burst adjustment (macro share_received in sample_pool.rs,
lines 353-378): emit ShareAccepted, increment accepted_shares, and if the
post-increment count exceeds MAX_USER_SHARES_PER_30_SEC while cur_target is
below the cap, emit ShareDifficulty, bump cur_target and halve the counter. -/
def share_received (timestamp : Nat) (user : PerUser) (cur_target : Nat)
    (user_tag_1 user_tag_2 : Bytes) : List OutMsg × PerUser :=
  let accepted_shares := user.accepted_shares
  let user' := { user with accepted_shares := accepted_shares + 1 }
  if accepted_shares + 1 > MAX_USER_SHARES_PER_30_SEC ∧ cur_target < MAX_TARGET_LEADING_0S then
    ([OutMsg.ShareAccepted user_tag_1 user_tag_2,
      OutMsg.ShareDifficulty user.user_id timestamp
        (leading_0s_to_target (cur_target + 1))
        (leading_0s_to_target (cur_target + 1 + WEAK_BLOCK_RATIO_0S))],
     { user' with cur_target := cur_target + 1, accepted_shares := (accepted_shares + 1) / 2 })
  else
    ([OutMsg.ShareAccepted user_tag_1 user_tag_2], user')

/-- The periodic 30-second tick adjustment for one live user
(sample_pool.rs lines 208-229): swap accepted_shares to zero, move
cur_target one step toward the band, and emit ShareDifficulty iff it moved. -/
def tickUser (timestamp : Nat) (user : PerUser) : PerUser × List OutMsg :=
  let shares := user.accepted_shares
  let cur_target := user.cur_target
  let new_target :=
    if shares > MAX_USER_SHARES_PER_30_SEC ∧ cur_target < MAX_TARGET_LEADING_0S then
      cur_target + 1
    else if shares < MIN_USER_SHARES_PER_30_SEC ∧ cur_target > MIN_TARGET_LEADING_0S ∧
        cur_target > user.min_target then
      cur_target - 1
    else
      cur_target
  if new_target ≠ cur_target then
    ({ user with accepted_shares := 0, cur_target := new_target },
     [OutMsg.ShareDifficulty user.user_id timestamp
        (leading_0s_to_target new_target)
        (leading_0s_to_target (new_target + WEAK_BLOCK_RATIO_0S))])
  else
    ({ user with accepted_shares := 0 }, [])

/-- The ProtocolSupport arm (sample_pool.rs lines 381-410). -/
def handleProtocolSupport (env : Env) (st : ConnState)
    (max_version min_version _flags : Nat) : HandlerResult :=
  if st.client_version.isSome then .drop
  else if min_version > 1 ∨ max_version < 1 then .drop
  else
    .ok []
      [OutMsg.ProtocolVersion 1 0,
       OutMsg.PayoutInfo env.timestamp env.payout_script []]
      { st with client_version := some 1 }

/-- The UserAuth arm (sample_pool.rs lines 415-479).  The coinbase suffix
handed back is server_id followed by the little-endian client id (the
source calls it client_coinbase_postfix). -/
def handleUserAuth (env : Env) (st : ConnState) (info : UserAuthInfo) : HandlerResult :=
  if st.client_version = none then .drop
  else if (alist_get info.user_id st.connection_clients).isSome then .drop
  else if env.check_user_auth info.user_id info.user_auth then
    let client_id := st.max_client_id
    let client_coinbase_suffix := env.server_id ++ le64_to_array client_id
    let initial_target :=
      min MAX_TARGET_LEADING_0S
        (max MIN_TARGET_LEADING_0S
          (max (count_leading_zeros info.suggested_target + 1)
               (count_leading_zeros info.minimum_target + 1)))
    let user : PerUser :=
      { client_id := client_id
        user_id := info.user_id
        min_target := count_leading_zeros info.minimum_target + 1
        cur_target := initial_target
        accepted_shares := 0 }
    .ok []
      [OutMsg.AcceptUserAuth info.user_id env.timestamp client_coinbase_suffix,
       OutMsg.ShareDifficulty info.user_id env.timestamp
         (leading_0s_to_target initial_target)
         (leading_0s_to_target (initial_target + WEAK_BLOCK_RATIO_0S))]
      { st with
          max_client_id := client_id + 1,
          client_ids := (client_id, info.user_id) :: st.client_ids,
          connection_clients := (info.user_id, user) :: st.connection_clients }
  else if st.connection_clients = [] then .drop
  else .ok [] [OutMsg.RejectUserAuth info.user_id] st

/-- The DropUser arm (sample_pool.rs lines 492-499). -/
def handleDropUser (st : ConnState) (user_id : Bytes) : HandlerResult :=
  match alist_get user_id st.connection_clients with
  | some client_ref =>
      .ok [] []
        { st with
            connection_clients := alist_remove user_id st.connection_clients,
            client_ids := alist_remove client_ref.client_id st.client_ids }
  | none => .drop

/-- The Share arm (sample_pool.rs lines 504-546). -/
def handleShare (env : Env) (st : ConnState) (share : ShareMsg) : HandlerResult :=
  if st.client_version = none ∨ st.connection_clients = [] then .drop
  else
    match check_coinbase_tx st.client_ids env.payout_script share.coinbase_tx with
    | none =>
        .ok [] [OutMsg.ShareRejected share.user_tag_1 share.user_tag_2 .BadPayoutInfo] st
    | some (our_payout, user_id) =>
      let leading_zeros := shareZ env share
      match alist_get user_id st.connection_clients with
      | none => .abort
      | some client =>
        let client_target := client.cur_target
        if client_target + WEAK_BLOCK_RATIO_0S ≤ leading_zeros then
          .ok [] [] st
        else if client_target ≤ leading_zeros then
          let r := share_received env.timestamp client client_target share.user_tag_1 share.user_tag_2
          .ok [Event.shareSubmitted user_id share.user_tag_1 our_payout] r.1
            { st with connection_clients := alist_set user_id r.2 st.connection_clients }
        else
          .ok [] [OutMsg.ShareRejected share.user_tag_1 share.user_tag_2 .BadHash] st

/-- The weak-block reconstruction loop (sample_pool.rs lines 600-623).
State: the working copy of last_weak_block, and the accumulated new_txn.
A TakeTx in bounds pushes the element currently stored at that index and
swaps an empty transaction into its place (mem::swap with the freshly
pushed Vec::new()); a TakeTx out of bounds aborts the walk, returning the
working copy as it stands at that point. -/
def reconstructLoop : List Bytes → List Bytes → List WeakBlockAction →
    Except (List Bytes) (List Bytes × List Bytes)
  | last_weak, new_txn, [] => .ok (new_txn, last_weak)
  | last_weak, new_txn, .TakeTx n :: rest =>
      if n < last_weak.length then
        reconstructLoop (setNth last_weak n []) (new_txn ++ [nthD [] last_weak n]) rest
      else
        .error last_weak
  | last_weak, new_txn, .NewTx tx :: rest =>
      reconstructLoop last_weak (new_txn ++ [tx]) rest

/-- The WeakBlock arm (sample_pool.rs lines 547-639). -/
def handleWeakBlock (env : Env) (st : ConnState) (sketch : WeakBlockSketch) : HandlerResult :=
  if st.client_version = none ∨ st.connection_clients = [] then .drop
  else
    match sketch.txn with
    | [] => .drop
    | act0 :: _ =>
      match act0 with
      | .TakeTx _ =>
          .ok []
            [OutMsg.ShareRejected sketch.user_tag_1 sketch.user_tag_2 .BadWork,
             OutMsg.WeakBlockStateReset] st
      | .NewTx tx =>
        match env.deser tx with
        | none =>
            .ok []
              [OutMsg.ShareRejected sketch.user_tag_1 sketch.user_tag_2 .BadPayoutInfo,
               OutMsg.WeakBlockStateReset] st
        | some tx_deser =>
          match check_coinbase_tx st.client_ids env.payout_script tx_deser with
          | none =>
              .ok []
                [OutMsg.ShareRejected sketch.user_tag_1 sketch.user_tag_2 .BadPayoutInfo,
                 OutMsg.WeakBlockStateReset] st
          | some (our_payout, user_id) =>
            match reconstructLoop (st.last_weak_block.getD []) [] sketch.txn with
            | .error last_after =>
                .ok []
                  [OutMsg.ShareRejected sketch.user_tag_1 sketch.user_tag_2 .BadWork,
                   OutMsg.WeakBlockStateReset]
                  { st with last_weak_block := st.last_weak_block.map fun _ => last_after }
            | .ok (new_txn, _) =>
              let leading_zeros := sketchZ env sketch tx_deser
              match alist_get user_id st.connection_clients with
              | none => .abort
              | some client =>
                let client_target := client.cur_target
                if client_target + WEAK_BLOCK_RATIO_0S ≤ leading_zeros then
                  let r := share_received env.timestamp client client_target
                      sketch.user_tag_1 sketch.user_tag_2
                  .ok [Event.weakBlockSubmitted user_id sketch.user_tag_1 our_payout
                        new_txn sketch.extra_block_data]
                    r.1
                    { st with
                        connection_clients := alist_set user_id r.2 st.connection_clients,
                        last_weak_block := some new_txn }
                else
                  .ok []
                    [OutMsg.ShareRejected sketch.user_tag_1 sketch.user_tag_2 .BadHash]
                    { st with last_weak_block := some new_txn }

/-- The full inbound dispatch (the match in sample_pool.rs lines 380-660).
Server-to-client message types received inbound drop the connection;
VendorMessage is ignored in every state. -/
def handleMessage (env : Env) (st : ConnState) : PoolMessage → HandlerResult
  | .ProtocolSupport max_version min_version flags =>
      handleProtocolSupport env st max_version min_version flags
  | .ProtocolVersion _ _ => .drop
  | .UserAuth info => handleUserAuth env st info
  | .PayoutInfo _ => .drop
  | .AcceptUserAuth _ => .drop
  | .RejectUserAuth _ => .drop
  | .DropUser user_id => handleDropUser st user_id
  | .ShareDifficulty _ => .drop
  | .Share share => handleShare env st share
  | .WeakBlock sketch => handleWeakBlock env st sketch
  | .WeakBlockStateReset => .drop
  | .ShareAccepted _ _ => .drop
  | .ShareRejected _ _ => .drop
  | .NewPoolServer _ => .drop
  | .VendorMessage _ => .ok [] [] st

/-- The indices referenced by the TakeTx actions of a sketch, in order. -/
def takeIdxs : List WeakBlockAction → List Nat
  | [] => []
  | .TakeTx n :: rest => n :: takeIdxs rest
  | .NewTx _ :: rest => takeIdxs rest

/-- The transaction an action contributes according to the specification's
reading (TakeTx n contributes last_weak_block[n]). -/
def specTakeTx (last_weak : List Bytes) : WeakBlockAction → Bytes
  | .NewTx tx => tx
  | .TakeTx n => nthD [] last_weak n

/-! ### Concrete fixtures for counterexamples and witnesses -/

/-- A well-formed coinbase transaction: one input whose 8-byte signature
script ends in the little-endian client id, one output paying the
configured script. -/
def cbTx0 : Transaction :=
  { input := [{ script_sig := [1, 2, 3, 4, 5, 6, 7, 8] }]
    output := [{ value := 5, script_pubkey := [9] }] }

/-- An authenticated test user. -/
def user0 : PerUser :=
  { client_id := 0, user_id := [42], min_target := 48, cur_target := 50, accepted_shares := 0 }

/-- A concrete environment: auth always allows, the payout script is [9],
the only deserializable byte string is [0] (yielding cbTx0), and every
header hashes to 32 0xff bytes (zero leading zeros). -/
def envStub : Env :=
  { check_user_auth := fun _ _ => true
    server_id := [83]
    payout_script := [9]
    deser := fun b => if b = [0] then some cbTx0 else none
    txid := fun _ => List.replicate 32 0
    sha256 := fun _ => List.replicate 32 0
    headerHash := fun _ => List.replicate 32 255
    timestamp := 1000 }

/-- Like envStub but every header hashes to 32 zero bytes (256 leading
zeros), so any submission meets the weak-block threshold. -/
def envZero : Env :=
  { envStub with headerHash := fun _ => List.replicate 32 0 }

/-- A connection state with one authenticated user ([42], client id given
by slice_to_le64 of cbTx0's script end) and a two-element last weak block. -/
def st0 : ConnState :=
  { client_version := some 1
    max_client_id := 1
    connection_clients := [([42], user0)]
    client_ids := [(slice_to_le64 [1, 2, 3, 4, 5, 6, 7, 8], [42])]
    last_weak_block := some [[7], [8]] }

/-- A connection state that has completed version negotiation but has no
authenticated users yet. -/
def stReady : ConnState :=
  { client_version := some 1
    max_client_id := 0
    connection_clients := []
    client_ids := []
    last_weak_block := none }

/-- A freshly connected state: no ProtocolSupport received yet. -/
def stFresh : ConnState :=
  { client_version := none
    max_client_id := 0
    connection_clients := []
    client_ids := []
    last_weak_block := none }

/-- A sketch whose actions repeat the same TakeTx index. -/
def sketchDup : WeakBlockSketch :=
  { header_version := 0, header_prevblock := [], header_time := 0, header_nbits := 0
    header_nonce := 0, merkle_rhss := []
    txn := [.NewTx [0], .TakeTx 0, .TakeTx 0]
    user_tag_1 := [1], user_tag_2 := [2], extra_block_data := [] }

/-- A sketch with an out-of-range TakeTx after an in-range one. -/
def sketchOob : WeakBlockSketch :=
  { sketchDup with txn := [.NewTx [0], .TakeTx 0, .TakeTx 5] }

/-- A sketch whose first action is a TakeTx. -/
def sketchTakeFirst : WeakBlockSketch :=
  { sketchDup with txn := [.TakeTx 0] }

/-- A sketch with no actions at all. -/
def sketchEmpty : WeakBlockSketch :=
  { sketchDup with txn := [] }

/-- A share message carrying the well-formed coinbase. -/
def shareMsg0 : ShareMsg :=
  { header_version := 0, header_prevblock := [], header_time := 0, header_nbits := 0
    header_nonce := 0, merkle_rhss := [], coinbase_tx := cbTx0
    user_tag_1 := [1], user_tag_2 := [2] }

/-! ### Helper lemmas about list assignment and the reconstruction loop -/

theorem setNth_length {α : Type} (v : α) :
    ∀ (l : List α) (n : Nat), (setNth l n v).length = l.length := by
  intro l
  induction l with
  | nil => intro n; rfl
  | cons a l ih =>
    intro n
    cases n with
    | zero => rfl
    | succ m => simp [setNth, ih]

theorem nthD_setNth_ne {α : Type} (d v : α) :
    ∀ (l : List α) (i j : Nat), i ≠ j → nthD d (setNth l i v) j = nthD d l j := by
  intro l
  induction l with
  | nil => intro i j _; rfl
  | cons a l ih =>
    intro i j hne
    cases i with
    | zero =>
      cases j with
      | zero => exact absurd rfl hne
      | succ m => rfl
    | succ n =>
      cases j with
      | zero => rfl
      | succ m => simpa [setNth, nthD] using ih n m (by omega)

theorem nthD_setNth_self {α : Type} (d v : α) :
    ∀ (l : List α) (i : Nat), i < l.length → nthD d (setNth l i v) i = v := by
  intro l
  induction l with
  | nil => intro i h; simp at h
  | cons a l ih =>
    intro i h
    cases i with
    | zero => rfl
    | succ n => simpa [setNth, nthD] using ih n (by simpa using h)

/-- If the reconstruction loop aborts at an out-of-range TakeTx, the working
copy it leaves behind keeps its length, and every entry is either the
original one or has been emptied by an earlier swap. -/
theorem reconstructLoop_err_spec :
    ∀ (acts : List WeakBlockAction) (last_weak acc l' : List Bytes),
      reconstructLoop last_weak acc acts = .error l' →
      l'.length = last_weak.length ∧
        ∀ i, nthD [] l' i = nthD [] last_weak i ∨ nthD [] l' i = [] := by
  intro acts
  induction acts with
  | nil =>
    intro last_weak acc l' h
    simp [reconstructLoop] at h
  | cons a rest ih =>
    intro last_weak acc l' h
    cases a with
    | NewTx tx =>
      exact ih last_weak (acc ++ [tx]) l' (by simpa [reconstructLoop] using h)
    | TakeTx n =>
      by_cases hn : n < last_weak.length
      · rw [reconstructLoop, if_pos hn] at h
        obtain ⟨hlen, hent⟩ := ih _ _ _ h
        refine ⟨by rw [hlen, setNth_length], ?_⟩
        intro i
        rcases hent i with h1 | h1
        · by_cases hi : n = i
          · subst hi
            right
            rw [h1, nthD_setNth_self _ _ _ _ hn]
          · left
            rw [h1, nthD_setNth_ne _ _ _ _ _ hi]
        · right
          exact h1
      · rw [reconstructLoop, if_neg hn] at h
        have : last_weak = l' := by simpa using h
        subst this
        exact ⟨rfl, fun i => Or.inl rfl⟩

/-- If some TakeTx index of the sketch is out of range for the previous
weak block, the reconstruction loop aborts. -/
theorem reconstructLoop_err_oob :
    ∀ (acts : List WeakBlockAction) (last_weak acc : List Bytes),
      (∃ n ∈ takeIdxs acts, last_weak.length ≤ n) →
      ∃ l', reconstructLoop last_weak acc acts = .error l' := by
  intro acts
  induction acts with
  | nil =>
    intro last_weak acc h
    simp [takeIdxs] at h
  | cons a rest ih =>
    intro last_weak acc h
    cases a with
    | NewTx tx =>
      obtain ⟨l', hl'⟩ := ih last_weak (acc ++ [tx]) (by simpa [takeIdxs] using h)
      exact ⟨l', by simpa [reconstructLoop] using hl'⟩
    | TakeTx m =>
      by_cases hm : m < last_weak.length
      · have hrest : ∃ n ∈ takeIdxs rest, (setNth last_weak m ([] : Bytes)).length ≤ n := by
          obtain ⟨n, hn, hlen⟩ := h
          simp only [takeIdxs] at hn
          rcases List.mem_cons.mp hn with h1 | h1
          · subst h1
            exact absurd hm (by omega)
          · exact ⟨n, h1, by rwa [setNth_length]⟩
        obtain ⟨l', hl'⟩ := ih _ _ hrest
        exact ⟨l', by rw [reconstructLoop, if_pos hm]; exact hl'⟩
      · exact ⟨last_weak, by rw [reconstructLoop, if_neg hm]⟩

/-- Actions over two previous-block lists that agree on all referenced
TakeTx indices contribute the same transactions. -/
theorem map_specTakeTx_congr :
    ∀ (acts : List WeakBlockAction) (l1 l2 : List Bytes),
      (∀ m ∈ takeIdxs acts, nthD [] l1 m = nthD [] l2 m) →
      acts.map (specTakeTx l1) = acts.map (specTakeTx l2) := by
  intro acts
  induction acts with
  | nil => intro l1 l2 _; rfl
  | cons a rest ih =>
    intro l1 l2 hag
    cases a with
    | NewTx tx =>
      simp only [List.map_cons, specTakeTx]
      rw [ih l1 l2 (fun m hm => hag m (by simpa [takeIdxs] using hm))]
    | TakeTx m =>
      simp only [List.map_cons, specTakeTx]
      rw [hag m (by simp [takeIdxs]),
          ih l1 l2 (fun m' hm' => hag m' (by simp [takeIdxs, hm']))]

/-- When every TakeTx index is in range and no index repeats, the
reconstruction loop succeeds and produces exactly the naive per-action
transaction list (TakeTx n contributing last_weak_block[n]). -/
theorem reconstructLoop_ok_nodup :
    ∀ (acts : List WeakBlockAction) (last_weak acc : List Bytes),
      (∀ n ∈ takeIdxs acts, n < last_weak.length) →
      (takeIdxs acts).Nodup →
      ∃ l', reconstructLoop last_weak acc acts =
        .ok (acc ++ acts.map (specTakeTx last_weak), l') := by
  intro acts
  induction acts with
  | nil =>
    intro last_weak acc _ _
    exact ⟨last_weak, by simp [reconstructLoop]⟩
  | cons a rest ih =>
    intro last_weak acc hb hnd
    cases a with
    | NewTx tx =>
      obtain ⟨l', hl'⟩ := ih last_weak (acc ++ [tx])
        (fun n hn => hb n (by simpa [takeIdxs] using hn))
        (by simpa [takeIdxs] using hnd)
      refine ⟨l', ?_⟩
      rw [reconstructLoop, hl']
      simp [specTakeTx]
    | TakeTx n =>
      have hn : n < last_weak.length := hb n (by simp [takeIdxs])
      rw [takeIdxs] at hnd
      have hnotmem : n ∉ takeIdxs rest := (List.nodup_cons.mp hnd).1
      obtain ⟨l', hl'⟩ := ih (setNth last_weak n []) (acc ++ [nthD [] last_weak n])
        (fun m hm => by rw [setNth_length]; exact hb m (by simp [takeIdxs, hm]))
        ((List.nodup_cons.mp hnd).2)
      refine ⟨l', ?_⟩
      rw [reconstructLoop, if_pos hn, hl',
          map_specTakeTx_congr rest (setNth last_weak n []) last_weak
            (fun m hm => nthD_setNth_ne _ _ _ _ _ (fun he => hnotmem (he ▸ hm)))]
      simp [specTakeTx]

/-! ### Claim C1: weak-block delta reconstruction -/

/-- Counterexample for C1: with last_weak_block = [[7],[8]] the sketch
[NewTx [0], TakeTx 0, TakeTx 0] reconstructs to [[0],[7],[]] — the second
TakeTx 0 appends the empty transaction left by the first swap, not
last_weak_block[0] = [7] again, so the stored reconstruction differs from
the claim's [[0],[7],[7]]. -/
theorem c1_counterexample :
    handleWeakBlock envStub st0 sketchDup =
      .ok [] [OutMsg.ShareRejected [1] [2] .BadHash]
        { st0 with last_weak_block := some [[0], [7], []] } ∧
    (some [[0], [7], []] : Option (List Bytes)) ≠ some [[0], [7], [7]] := by
  constructor
  · decide
  · decide

/-- Claim C1 (amended): the reconstruction walks sketch.txn in order; a
NewTx appends its transaction, and a TakeTx n appends the transaction
currently stored at index n of the working copy of last_weak_block, leaving
an empty transaction in its place — so when all TakeTx indices are in range
and pairwise distinct the result is exactly the naive per-index list, while
a repeated TakeTx n appends the empty transaction; a TakeTx whose index is
out of range (last_weak_block read as empty when absent) is rejected with
ShareRejected BadWork followed by WeakBlockStateReset; and the spec's
worked example reconstructs as stated. -/
theorem c1_weak_block_reconstruction :
    (∀ (last_weak : List Bytes) (acts : List WeakBlockAction),
        (∀ n ∈ takeIdxs acts, n < last_weak.length) →
        (takeIdxs acts).Nodup →
        ∃ l', reconstructLoop last_weak [] acts =
          .ok (acts.map (specTakeTx last_weak), l'))
    ∧ (∀ (last_weak : List Bytes) (n : Nat), n < last_weak.length →
        reconstructLoop last_weak [] [.TakeTx n, .TakeTx n] =
          .ok ([nthD [] last_weak n, []], setNth (setNth last_weak n []) n []))
    ∧ (∀ (env : Env) (st : ConnState) (sketch : WeakBlockSketch)
          (tx : Bytes) (tx_deser : Transaction) (our_payout : Nat) (uid : Bytes)
          (rest : List WeakBlockAction),
        st.client_version ≠ none → st.connection_clients ≠ [] →
        sketch.txn = .NewTx tx :: rest →
        env.deser tx = some tx_deser →
        check_coinbase_tx st.client_ids env.payout_script tx_deser = some (our_payout, uid) →
        (∃ n ∈ takeIdxs sketch.txn, (st.last_weak_block.getD []).length ≤ n) →
        ∃ last_after, handleWeakBlock env st sketch =
          .ok []
            [OutMsg.ShareRejected sketch.user_tag_1 sketch.user_tag_2 .BadWork,
             OutMsg.WeakBlockStateReset]
            { st with last_weak_block := st.last_weak_block.map fun _ => last_after })
    ∧ reconstructLoop [[10], [1], [2], [3]] []
        [.NewTx [99], .TakeTx 1, .NewTx [4], .TakeTx 3] =
        .ok ([[99], [1], [4], [3]], [[10], [], [2], []]) := by
  have example_eq : reconstructLoop [[10], [1], [2], [3]] []
      [.NewTx [99], .TakeTx 1, .NewTx [4], .TakeTx 3] =
      .ok ([[99], [1], [4], [3]], [[10], [], [2], []]) := rfl
  refine ⟨?_, ?_, ?_, example_eq⟩
  · intro last_weak acts hb hnd
    simpa using reconstructLoop_ok_nodup acts last_weak [] hb hnd
  · intro last_weak n hn
    rw [reconstructLoop, if_pos hn,
        reconstructLoop, if_pos (by rwa [setNth_length]),
        nthD_setNth_self _ _ _ _ hn]
    rfl
  · intro env st sketch tx tx_deser our_payout uid rest hv hc htxn hdeser hcheck hoob
    obtain ⟨l', herr⟩ :=
      reconstructLoop_err_oob sketch.txn (st.last_weak_block.getD []) [] hoob
    refine ⟨l', ?_⟩
    rw [htxn] at herr
    unfold handleWeakBlock
    rw [if_neg (not_or.mpr ⟨hv, hc⟩), htxn]
    dsimp only
    rw [hdeser]
    dsimp only
    rw [hcheck]
    dsimp only
    rw [herr]

/-- Witness for C1: distinct in-range indices reconstruct naively, and the
concrete out-of-range sketch is answered BadWork then WeakBlockStateReset. -/
theorem c1_weak_block_reconstruction_witness :
    (∃ l', reconstructLoop [[5], [6]] [] [.TakeTx 0, .TakeTx 1] =
      .ok ([[5], [6]], l')) ∧
    (∃ last_after, handleWeakBlock envStub st0 sketchOob =
      .ok []
        [OutMsg.ShareRejected sketchOob.user_tag_1 sketchOob.user_tag_2 .BadWork,
         OutMsg.WeakBlockStateReset]
        { st0 with last_weak_block := st0.last_weak_block.map fun _ => last_after }) :=
  by
  constructor
  · simpa using
      c1_weak_block_reconstruction.1 [[5], [6]] [.TakeTx 0, .TakeTx 1] (by decide) (by decide)
  · exact
      c1_weak_block_reconstruction.2.2.1 envStub st0 sketchOob [0] cbTx0 5 [42]
        [.TakeTx 0, .TakeTx 5] (by decide) (by decide) rfl (by decide) (by decide)
        ⟨5, by decide, by decide⟩

/-! ### Claim C2: last_weak_block update discipline -/

/-- Counterexample for C2: with last_weak_block = some [[7],[8]], the sketch
[NewTx [0], TakeTx 0, TakeTx 0 .. TakeTx 5] whose third action is out of
range is rejected BadWork with a WeakBlockStateReset — but the earlier
in-range TakeTx 0 already swapped an empty transaction into the stored
list, so last_weak_block becomes some [[],[8]]: its stored transactions are
NOT left unchanged as the claim asserts. -/
theorem c2_counterexample :
    handleWeakBlock envStub st0 sketchOob =
      .ok []
        [OutMsg.ShareRejected [1] [2] .BadWork, OutMsg.WeakBlockStateReset]
        { st0 with last_weak_block := some [[], [8]] } ∧
    (some [[], [8]] : Option (List Bytes)) ≠ st0.last_weak_block := by
  constructor
  · decide
  · decide

/-- Claim C2 (amended): whenever reconstruction completes, last_weak_block
is set to the reconstructed list new_txn — whether the block is accepted or
rejected BadHash; a rejection before the loop (TakeTx first action,
undeserializable coinbase, failed coinbase policy) emits
WeakBlockStateReset and leaves the state, last_weak_block included, exactly
unchanged; an out-of-range TakeTx emits WeakBlockStateReset and does not
reassign last_weak_block (absent stays absent), but the transactions
consumed by earlier TakeTx actions of the same sketch have been replaced by
empty ones — only the length and the untouched entries are preserved. -/
theorem c2_last_weak_block_update :
    (∀ (env : Env) (st : ConnState) (sketch : WeakBlockSketch)
        (tx : Bytes) (tx_deser : Transaction) (our_payout : Nat) (uid : Bytes)
        (rest : List WeakBlockAction) (new_txn l'' : List Bytes) (client : PerUser),
      st.client_version ≠ none → st.connection_clients ≠ [] →
      sketch.txn = .NewTx tx :: rest →
      env.deser tx = some tx_deser →
      check_coinbase_tx st.client_ids env.payout_script tx_deser = some (our_payout, uid) →
      reconstructLoop (st.last_weak_block.getD []) [] sketch.txn = .ok (new_txn, l'') →
      alist_get uid st.connection_clients = some client →
      ∃ evs msgs cc, handleWeakBlock env st sketch =
        .ok evs msgs { st with connection_clients := cc, last_weak_block := some new_txn })
    ∧ (∀ (env : Env) (st : ConnState) (sketch : WeakBlockSketch)
          (n : Nat) (rest : List WeakBlockAction),
      st.client_version ≠ none → st.connection_clients ≠ [] →
      sketch.txn = .TakeTx n :: rest →
      handleWeakBlock env st sketch =
        .ok []
          [OutMsg.ShareRejected sketch.user_tag_1 sketch.user_tag_2 .BadWork,
           OutMsg.WeakBlockStateReset] st)
    ∧ (∀ (env : Env) (st : ConnState) (sketch : WeakBlockSketch)
          (tx : Bytes) (rest : List WeakBlockAction),
      st.client_version ≠ none → st.connection_clients ≠ [] →
      sketch.txn = .NewTx tx :: rest →
      env.deser tx = none →
      handleWeakBlock env st sketch =
        .ok []
          [OutMsg.ShareRejected sketch.user_tag_1 sketch.user_tag_2 .BadPayoutInfo,
           OutMsg.WeakBlockStateReset] st)
    ∧ (∀ (env : Env) (st : ConnState) (sketch : WeakBlockSketch)
          (tx : Bytes) (tx_deser : Transaction) (rest : List WeakBlockAction),
      st.client_version ≠ none → st.connection_clients ≠ [] →
      sketch.txn = .NewTx tx :: rest →
      env.deser tx = some tx_deser →
      check_coinbase_tx st.client_ids env.payout_script tx_deser = none →
      handleWeakBlock env st sketch =
        .ok []
          [OutMsg.ShareRejected sketch.user_tag_1 sketch.user_tag_2 .BadPayoutInfo,
           OutMsg.WeakBlockStateReset] st)
    ∧ (∀ (env : Env) (st : ConnState) (sketch : WeakBlockSketch)
          (tx : Bytes) (tx_deser : Transaction) (our_payout : Nat) (uid : Bytes)
          (rest : List WeakBlockAction) (l' : List Bytes),
      st.client_version ≠ none → st.connection_clients ≠ [] →
      sketch.txn = .NewTx tx :: rest →
      env.deser tx = some tx_deser →
      check_coinbase_tx st.client_ids env.payout_script tx_deser = some (our_payout, uid) →
      reconstructLoop (st.last_weak_block.getD []) [] sketch.txn = .error l' →
      handleWeakBlock env st sketch =
        .ok []
          [OutMsg.ShareRejected sketch.user_tag_1 sketch.user_tag_2 .BadWork,
           OutMsg.WeakBlockStateReset]
          { st with last_weak_block := st.last_weak_block.map fun _ => l' } ∧
      l'.length = (st.last_weak_block.getD []).length ∧
      (∀ i, nthD [] l' i = nthD [] (st.last_weak_block.getD []) i ∨ nthD [] l' i = [])) := by
  refine ⟨?_, ?_, ?_, ?_, ?_⟩
  · intro env st sketch tx tx_deser our_payout uid rest new_txn l'' client
      hv hc htxn hdeser hcheck hrec hget
    rw [htxn] at hrec
    unfold handleWeakBlock
    rw [if_neg (not_or.mpr ⟨hv, hc⟩), htxn]
    dsimp only
    rw [hdeser]
    dsimp only
    rw [hcheck]
    dsimp only
    rw [hrec]
    dsimp only
    rw [hget]
    dsimp only
    by_cases hz : client.cur_target + WEAK_BLOCK_RATIO_0S ≤ sketchZ env sketch tx_deser
    · rw [if_pos hz]
      exact ⟨_, _, _, rfl⟩
    · rw [if_neg hz]
      exact ⟨_, _, st.connection_clients, rfl⟩
  · intro env st sketch n rest hv hc htxn
    unfold handleWeakBlock
    rw [if_neg (not_or.mpr ⟨hv, hc⟩), htxn]
  · intro env st sketch tx rest hv hc htxn hdeser
    unfold handleWeakBlock
    rw [if_neg (not_or.mpr ⟨hv, hc⟩), htxn]
    dsimp only
    rw [hdeser]
  · intro env st sketch tx tx_deser rest hv hc htxn hdeser hcheck
    unfold handleWeakBlock
    rw [if_neg (not_or.mpr ⟨hv, hc⟩), htxn]
    dsimp only
    rw [hdeser]
    dsimp only
    rw [hcheck]
  · intro env st sketch tx tx_deser our_payout uid rest l'
      hv hc htxn hdeser hcheck herr
    obtain ⟨hlen, hent⟩ := reconstructLoop_err_spec sketch.txn _ _ _ herr
    rw [htxn] at herr
    refine ⟨?_, hlen, hent⟩
    unfold handleWeakBlock
    rw [if_neg (not_or.mpr ⟨hv, hc⟩), htxn]
    dsimp only
    rw [hdeser]
    dsimp only
    rw [hcheck]
    dsimp only
    rw [herr]

/-- Witness for C2: a sketch starting with TakeTx on a live connection is
answered BadWork then WeakBlockStateReset with the state unchanged. -/
theorem c2_last_weak_block_update_witness :
    handleWeakBlock envStub st0 sketchTakeFirst =
      .ok []
        [OutMsg.ShareRejected sketchTakeFirst.user_tag_1 sketchTakeFirst.user_tag_2 .BadWork,
         OutMsg.WeakBlockStateReset] st0 :=
  c2_last_weak_block_update.2.1 envStub st0 sketchTakeFirst 0 []
    (by decide) (by decide) rfl

/-! ### Claim C3: difficulty-target invariant -/

/-- The difficulty band the controller actually maintains: cur_target stays
between max(MIN_TARGET_LEADING_0S, min(min_target, MAX_TARGET_LEADING_0S))
and MAX_TARGET_LEADING_0S. -/
abbrev userInv (u : PerUser) : Prop :=
  max MIN_TARGET_LEADING_0S (min u.min_target MAX_TARGET_LEADING_0S) ≤ u.cur_target ∧
  u.cur_target ≤ MAX_TARGET_LEADING_0S

/-- Counterexample for C3: authenticating with minimum_target of 70 leading
zeros yields min_target 71 but cur_target clamped to MAX_TARGET_LEADING_0S
= 63, so max(min_z, MIN_SHARE_Z) = 71 is NOT ≤ cur_z = 63 (and min_z ≤
cur_z fails as well). -/
theorem c3_counterexample :
    handleUserAuth envStub stReady
      { user_id := [97], user_auth := [120],
        suggested_target := leading_0s_to_target 50,
        minimum_target := leading_0s_to_target 70 } =
      .ok []
        [OutMsg.AcceptUserAuth [97] 1000 ([83] ++ le64_to_array 0),
         OutMsg.ShareDifficulty [97] 1000 (leading_0s_to_target 63) (leading_0s_to_target 71)]
        { stReady with
            max_client_id := 1,
            client_ids := [(0, [97])],
            connection_clients :=
              [([97], { client_id := 0, user_id := [97], min_target := 71,
                        cur_target := 63, accepted_shares := 0 })] } ∧
    ¬ (max 71 MIN_TARGET_LEADING_0S ≤ 63) := by
  constructor
  · decide
  · decide

/-- Claim C3 (amended): for every PerUser, at registration and across both
adjustment paths, max(MIN_TARGET_LEADING_0S, min(min_target,
MAX_TARGET_LEADING_0S)) ≤ cur_target ≤ MAX_TARGET_LEADING_0S; the
unclamped bound min_target ≤ cur_target claimed by the spec holds only when
min_target ≤ MAX_TARGET_LEADING_0S. -/
theorem c3_target_invariant :
    (∀ (env : Env) (st : ConnState) (info : UserAuthInfo) (evs : List Event)
        (msgs : List OutMsg) (st' : ConnState),
      handleUserAuth env st info = .ok evs msgs st' →
      ∀ p ∈ st'.connection_clients, p ∈ st.connection_clients ∨ userInv p.2)
    ∧ (∀ (ts : Nat) (u : PerUser) (t1 t2 : Bytes),
      userInv u → userInv (share_received ts u u.cur_target t1 t2).2)
    ∧ (∀ (ts : Nat) (u : PerUser), userInv u → userInv (tickUser ts u).1) := by
  refine ⟨?_, ?_, ?_⟩
  · intro env st info evs msgs st' h p hp
    unfold handleUserAuth at h
    by_cases h1 : st.client_version = none
    · rw [if_pos h1] at h
      exact HandlerResult.noConfusion h
    · rw [if_neg h1] at h
      by_cases h2 : (alist_get info.user_id st.connection_clients).isSome = true
      · rw [if_pos h2] at h
        exact HandlerResult.noConfusion h
      · rw [if_neg h2] at h
        by_cases h3 : env.check_user_auth info.user_id info.user_auth = true
        · rw [if_pos h3] at h
          cases h
          rcases List.mem_cons.mp hp with h4 | h4
          · right
            subst h4
            unfold userInv
            dsimp only
            simp only [MIN_TARGET_LEADING_0S, MAX_TARGET_LEADING_0S, WEAK_BLOCK_RATIO_0S]
            omega
          · left
            exact h4
        · rw [if_neg h3] at h
          by_cases h4 : st.connection_clients = []
          · rw [if_pos h4] at h
            exact HandlerResult.noConfusion h
          · rw [if_neg h4] at h
            cases h
            left
            exact hp
  · intro ts u t1 t2 hinv
    unfold share_received
    dsimp only
    by_cases hcond : u.accepted_shares + 1 > MAX_USER_SHARES_PER_30_SEC ∧
        u.cur_target < MAX_TARGET_LEADING_0S
    · rw [if_pos hcond]
      unfold userInv at hinv ⊢
      dsimp only
      omega
    · rw [if_neg hcond]
      exact hinv
  · intro ts u hinv
    unfold tickUser
    dsimp only
    by_cases h1 : u.accepted_shares > MAX_USER_SHARES_PER_30_SEC ∧
        u.cur_target < MAX_TARGET_LEADING_0S
    · rw [if_pos h1, if_pos (by omega)]
      unfold userInv at hinv ⊢
      dsimp only
      omega
    · rw [if_neg h1]
      by_cases h2 : u.accepted_shares < MIN_USER_SHARES_PER_30_SEC ∧
          u.cur_target > MIN_TARGET_LEADING_0S ∧ u.cur_target > u.min_target
      · rw [if_pos h2, if_pos (by omega)]
        unfold userInv at hinv ⊢
        dsimp only
        omega
      · rw [if_neg h2, if_neg (by omega)]
        exact hinv

/-- Witness for C3: the invariant holds for the concrete test user and is
preserved by a tick. -/
theorem c3_target_invariant_witness : userInv (tickUser 0 user0).1 :=
  c3_target_invariant.2.2 0 user0 (by decide)

/-! ### Claim C6: per-share burst adjustment -/

/-- Claim C6: on every accepted share the accepted_shares counter is
incremented; if the post-increment count exceeds MAX_USER_SHARES_PER_30_SEC
and cur_target is below MAX_TARGET_LEADING_0S, cur_target is bumped by one,
a ShareDifficulty for the new target follows the ShareAccepted, and the
counter becomes (post-increment)/2 (so a 31st accepted share leaves it at
15); otherwise cur_target is unchanged. -/
theorem c6_per_share_burst :
    ∀ (ts : Nat) (u : PerUser) (t1 t2 : Bytes),
      (u.accepted_shares + 1 > MAX_USER_SHARES_PER_30_SEC ∧
          u.cur_target < MAX_TARGET_LEADING_0S →
        share_received ts u u.cur_target t1 t2 =
          ([OutMsg.ShareAccepted t1 t2,
            OutMsg.ShareDifficulty u.user_id ts
              (leading_0s_to_target (u.cur_target + 1))
              (leading_0s_to_target (u.cur_target + 1 + WEAK_BLOCK_RATIO_0S))],
           { u with cur_target := u.cur_target + 1,
                    accepted_shares := (u.accepted_shares + 1) / 2 }))
      ∧ (¬ (u.accepted_shares + 1 > MAX_USER_SHARES_PER_30_SEC ∧
            u.cur_target < MAX_TARGET_LEADING_0S) →
        share_received ts u u.cur_target t1 t2 =
          ([OutMsg.ShareAccepted t1 t2],
           { u with accepted_shares := u.accepted_shares + 1 }))
      ∧ (u.accepted_shares = 30 ∧ u.cur_target < MAX_TARGET_LEADING_0S →
        (share_received ts u u.cur_target t1 t2).2.accepted_shares = 15 ∧
        (share_received ts u u.cur_target t1 t2).2.cur_target = u.cur_target + 1) := by
  intro ts u t1 t2
  refine ⟨?_, ?_, ?_⟩
  · intro h
    unfold share_received
    rw [if_pos h]
  · intro h
    unfold share_received
    rw [if_neg h]
  · intro h
    obtain ⟨h30, hcur⟩ := h
    have hcond : u.accepted_shares + 1 > MAX_USER_SHARES_PER_30_SEC ∧
        u.cur_target < MAX_TARGET_LEADING_0S := by
      constructor
      · simp only [MAX_USER_SHARES_PER_30_SEC, h30]
        omega
      · exact hcur
    unfold share_received
    rw [if_pos hcond]
    simp [h30]

/-- Witness for C6: a user at 30 accepted shares and target 50 has its 31st
share halve the counter to 15 and bump the target to 51. -/
theorem c6_per_share_burst_witness :
    (share_received 0 { user0 with accepted_shares := 30 }
        { user0 with accepted_shares := 30 }.cur_target [1] [2]).2.accepted_shares = 15 ∧
    (share_received 0 { user0 with accepted_shares := 30 }
        { user0 with accepted_shares := 30 }.cur_target [1] [2]).2.cur_target =
      { user0 with accepted_shares := 30 }.cur_target + 1 :=
  (c6_per_share_burst 0 { user0 with accepted_shares := 30 } [1] [2]).2.2
    (by constructor <;> decide)

/-! ### Claim C7: periodic tick adjustment -/

/-- Claim C7: the periodic tick swaps accepted_shares to 0 and, from the
prior count n: if n > MAX_USER_SHARES_PER_30_SEC and cur_target below the
cap, cur_target rises by one; else if n < MIN_USER_SHARES_PER_30_SEC and
cur_target above both MIN_TARGET_LEADING_0S and the user's min_target,
cur_target falls by one; else it is unchanged — and a ShareDifficulty with
the new target (and new target + WEAK_BLOCK_RATIO_0S for weak blocks) is
emitted exactly when cur_target changed. -/
theorem c7_tick_adjustment :
    ∀ (ts : Nat) (u : PerUser),
      (u.accepted_shares > MAX_USER_SHARES_PER_30_SEC ∧
          u.cur_target < MAX_TARGET_LEADING_0S →
        tickUser ts u =
          ({ u with accepted_shares := 0, cur_target := u.cur_target + 1 },
           [OutMsg.ShareDifficulty u.user_id ts
              (leading_0s_to_target (u.cur_target + 1))
              (leading_0s_to_target (u.cur_target + 1 + WEAK_BLOCK_RATIO_0S))]))
      ∧ (¬ (u.accepted_shares > MAX_USER_SHARES_PER_30_SEC ∧
            u.cur_target < MAX_TARGET_LEADING_0S) →
         u.accepted_shares < MIN_USER_SHARES_PER_30_SEC ∧
            u.cur_target > MIN_TARGET_LEADING_0S ∧ u.cur_target > u.min_target →
        tickUser ts u =
          ({ u with accepted_shares := 0, cur_target := u.cur_target - 1 },
           [OutMsg.ShareDifficulty u.user_id ts
              (leading_0s_to_target (u.cur_target - 1))
              (leading_0s_to_target (u.cur_target - 1 + WEAK_BLOCK_RATIO_0S))]))
      ∧ (¬ (u.accepted_shares > MAX_USER_SHARES_PER_30_SEC ∧
            u.cur_target < MAX_TARGET_LEADING_0S) →
         ¬ (u.accepted_shares < MIN_USER_SHARES_PER_30_SEC ∧
            u.cur_target > MIN_TARGET_LEADING_0S ∧ u.cur_target > u.min_target) →
        tickUser ts u = ({ u with accepted_shares := 0 }, [])) := by
  intro ts u
  refine ⟨?_, ?_, ?_⟩
  · intro h1
    unfold tickUser
    dsimp only
    rw [if_pos h1, if_pos (by omega)]
  · intro h1 h2
    unfold tickUser
    dsimp only
    rw [if_neg h1, if_pos h2, if_pos (by omega)]
  · intro h1 h2
    unfold tickUser
    dsimp only
    rw [if_neg h1, if_neg h2, if_neg (by omega)]

/-- Witness for C7: a user with 31 shares in the window and target 50 is
raised to target 51 with the matching ShareDifficulty. -/
theorem c7_tick_adjustment_witness :
    tickUser 5 { user0 with accepted_shares := 31 } =
      ({ { user0 with accepted_shares := 31 } with accepted_shares := 0, cur_target := 51 },
       [OutMsg.ShareDifficulty [42] 5 (leading_0s_to_target 51) (leading_0s_to_target 59)]) :=
  (c7_tick_adjustment 5 { user0 with accepted_shares := 31 }).1 (by constructor <;> decide)

/-! ### Claim C4: share difficulty evaluation -/

/-- Claim C4: for a Share on a has-users connection whose coinbase resolves,
with z the leading-zero count of the double-hashed header built from the
recomputed merkle root: z ≥ cur_target + WEAK_BLOCK_RATIO_0S is silently
ignored (no credit, no response); cur_target ≤ z < cur_target +
WEAK_BLOCK_RATIO_0S invokes share_submitted, emits ShareAccepted and runs
the burst adjustment; z < cur_target emits ShareRejected BadHash.
Consequently every credited Share satisfies cur_target ≤ z < cur_target +
WEAK_BLOCK_RATIO_0S and every credited WeakBlock satisfies z ≥ cur_target +
WEAK_BLOCK_RATIO_0S. -/
theorem c4_share_difficulty_evaluation :
    (∀ (env : Env) (st : ConnState) (share : ShareMsg) (p : Nat) (uid : Bytes)
        (client : PerUser),
      st.client_version ≠ none → st.connection_clients ≠ [] →
      check_coinbase_tx st.client_ids env.payout_script share.coinbase_tx = some (p, uid) →
      alist_get uid st.connection_clients = some client →
      ((client.cur_target + WEAK_BLOCK_RATIO_0S ≤ shareZ env share →
          handleShare env st share = .ok [] [] st)
       ∧ (client.cur_target ≤ shareZ env share ∧
            shareZ env share < client.cur_target + WEAK_BLOCK_RATIO_0S →
          handleShare env st share =
            .ok [Event.shareSubmitted uid share.user_tag_1 p]
              (share_received env.timestamp client client.cur_target
                share.user_tag_1 share.user_tag_2).1
              { st with connection_clients := (alist_set uid (share_received env.timestamp client client.cur_target share.user_tag_1 share.user_tag_2).2 st.connection_clients) })
       ∧ (shareZ env share < client.cur_target →
          handleShare env st share =
            .ok [] [OutMsg.ShareRejected share.user_tag_1 share.user_tag_2 .BadHash] st)))
    ∧ (∀ (env : Env) (st : ConnState) (share : ShareMsg) (evs : List Event)
          (msgs : List OutMsg) (st' : ConnState),
      handleShare env st share = .ok evs msgs st' → evs ≠ [] →
      ∃ p uid client,
        check_coinbase_tx st.client_ids env.payout_script share.coinbase_tx = some (p, uid) ∧
        alist_get uid st.connection_clients = some client ∧
        client.cur_target ≤ shareZ env share ∧
        shareZ env share < client.cur_target + WEAK_BLOCK_RATIO_0S)
    ∧ (∀ (env : Env) (st : ConnState) (sketch : WeakBlockSketch) (evs : List Event)
          (msgs : List OutMsg) (st' : ConnState),
      handleWeakBlock env st sketch = .ok evs msgs st' → evs ≠ [] →
      ∃ tx rest tx_deser p uid client,
        sketch.txn = .NewTx tx :: rest ∧
        env.deser tx = some tx_deser ∧
        check_coinbase_tx st.client_ids env.payout_script tx_deser = some (p, uid) ∧
        alist_get uid st.connection_clients = some client ∧
        client.cur_target + WEAK_BLOCK_RATIO_0S ≤ sketchZ env sketch tx_deser) := by
  refine ⟨?_, ?_, ?_⟩
  · intro env st share p uid client hv hc hcb hget
    have hcommon : ∀ (goal : HandlerResult),
        (match alist_get uid st.connection_clients with
          | none => HandlerResult.abort
          | some client =>
            if client.cur_target + WEAK_BLOCK_RATIO_0S ≤ shareZ env share then
              .ok [] [] st
            else if client.cur_target ≤ shareZ env share then
              .ok [Event.shareSubmitted uid share.user_tag_1 p]
                (share_received env.timestamp client client.cur_target
                  share.user_tag_1 share.user_tag_2).1
                { st with connection_clients := (alist_set uid (share_received env.timestamp client client.cur_target share.user_tag_1 share.user_tag_2).2 st.connection_clients) }
            else
              .ok [] [OutMsg.ShareRejected share.user_tag_1 share.user_tag_2 .BadHash] st) =
          goal →
        handleShare env st share = goal := by
      intro goal hgoal
      unfold handleShare
      rw [if_neg (not_or.mpr ⟨hv, hc⟩), hcb]
      exact hgoal
    refine ⟨?_, ?_, ?_⟩
    · intro hz
      exact hcommon _ (by rw [hget]; dsimp only; rw [if_pos hz])
    · intro hz
      exact hcommon _ (by
        rw [hget]
        dsimp only
        rw [if_neg (by omega), if_pos hz.1])
    · intro hz
      exact hcommon _ (by
        rw [hget]
        dsimp only
        rw [if_neg (by omega), if_neg (by omega)])
  · intro env st share evs msgs st' h hne
    unfold handleShare at h
    by_cases hg : st.client_version = none ∨ st.connection_clients = []
    · rw [if_pos hg] at h
      exact HandlerResult.noConfusion h
    · rw [if_neg hg] at h
      rcases hcb : check_coinbase_tx st.client_ids env.payout_script share.coinbase_tx with
        _ | ⟨p, uid⟩
      all_goals rw [hcb] at h
      · dsimp only at h
        cases h
        exact absurd rfl hne
      · dsimp only at h
        rcases hget : alist_get uid st.connection_clients with _ | client
        all_goals rw [hget] at h
        · exact HandlerResult.noConfusion h
        · dsimp only at h
          by_cases h1 : client.cur_target + WEAK_BLOCK_RATIO_0S ≤ shareZ env share
          · rw [if_pos h1] at h
            cases h
            exact absurd rfl hne
          · rw [if_neg h1] at h
            by_cases h2 : client.cur_target ≤ shareZ env share
            · rw [if_pos h2] at h
              cases h
              exact ⟨p, uid, client, rfl, hget, h2, by omega⟩
            · rw [if_neg h2] at h
              cases h
              exact absurd rfl hne
  · intro env st sketch evs msgs st' h hne
    unfold handleWeakBlock at h
    by_cases hg : st.client_version = none ∨ st.connection_clients = []
    · rw [if_pos hg] at h
      exact HandlerResult.noConfusion h
    · rw [if_neg hg] at h
      rcases htxn : sketch.txn with _ | ⟨act0, rest⟩
      all_goals rw [htxn] at h
      · exact HandlerResult.noConfusion h
      · cases act0 with
        | TakeTx n =>
          dsimp only at h
          cases h
          exact absurd rfl hne
        | NewTx tx =>
          dsimp only at h
          rcases hdes : env.deser tx with _ | tx_deser
          all_goals rw [hdes] at h
          · dsimp only at h
            cases h
            exact absurd rfl hne
          · dsimp only at h
            rcases hcb : check_coinbase_tx st.client_ids env.payout_script tx_deser with
              _ | ⟨p, uid⟩
            all_goals rw [hcb] at h
            · dsimp only at h
              cases h
              exact absurd rfl hne
            · dsimp only at h
              rcases hrec : reconstructLoop (st.last_weak_block.getD []) []
                  (WeakBlockAction.NewTx tx :: rest) with l' | ⟨new_txn, l''⟩
              all_goals rw [hrec] at h
              · dsimp only at h
                cases h
                exact absurd rfl hne
              · dsimp only at h
                rcases hget : alist_get uid st.connection_clients with _ | client
                all_goals rw [hget] at h
                · exact HandlerResult.noConfusion h
                · dsimp only at h
                  by_cases h1 : client.cur_target + WEAK_BLOCK_RATIO_0S ≤
                      sketchZ env sketch tx_deser
                  · rw [if_pos h1] at h
                    cases h
                    exact ⟨tx, rest, tx_deser, p, uid, client, rfl, hdes, hcb, hget, h1⟩
                  · rw [if_neg h1] at h
                    cases h
                    exact absurd rfl hne

/-- Witness for C4: with the all-ones header hash (z = 0 < 50) the concrete
share is rejected BadHash; with the all-zero header hash (z = 256 ≥ 58) it
is silently ignored. -/
theorem c4_share_difficulty_evaluation_witness :
    handleShare envStub st0 shareMsg0 =
      .ok [] [OutMsg.ShareRejected [1] [2] .BadHash] st0 ∧
    handleShare envZero st0 shareMsg0 = .ok [] [] st0 := by
  constructor
  · exact (c4_share_difficulty_evaluation.1 envStub st0 shareMsg0 5 [42] user0
      (by decide) (by decide) (by decide) (by decide)).2.2 (by decide)
  · exact (c4_share_difficulty_evaluation.1 envZero st0 shareMsg0 5 [42] user0
      (by decide) (by decide) (by decide) (by decide)).1 (by decide)

/-! ### Claim C5: coinbase policy -/

/-- Claim C5: a coinbase transaction passes the policy iff it has exactly
one input and at least one output, output 0's script equals the configured
payout script byte-for-byte (its value becoming our_payout), every later
output has value zero, and the input's signature script is at least 8 bytes
whose last 8 bytes decode little-endian to a registered client id; any
failure is answered with ShareRejected BadPayoutInfo. -/
theorem c5_coinbase_policy :
    (∀ (client_ids : List (Nat × Bytes)) (payout_script : Bytes) (tx : Transaction)
        (p : Nat) (uid : Bytes),
      check_coinbase_tx client_ids payout_script tx = some (p, uid) ↔
        ∃ i0 o0 rest, tx.input = [i0] ∧ tx.output = o0 :: rest ∧
          o0.script_pubkey = payout_script ∧ p = o0.value ∧
          (∀ o ∈ rest, o.value = 0) ∧
          8 ≤ i0.script_sig.length ∧
          alist_get (slice_to_le64 (i0.script_sig.drop (i0.script_sig.length - 8)))
            client_ids = some uid)
    ∧ (∀ (env : Env) (st : ConnState) (share : ShareMsg),
      st.client_version ≠ none → st.connection_clients ≠ [] →
      check_coinbase_tx st.client_ids env.payout_script share.coinbase_tx = none →
      handleShare env st share =
        .ok [] [OutMsg.ShareRejected share.user_tag_1 share.user_tag_2 .BadPayoutInfo] st) := by
  constructor
  · intro client_ids payout_script tx p uid
    constructor
    · intro h
      unfold check_coinbase_tx at h
      by_cases hg : tx.input.length ≠ 1 ∨ tx.output.length < 1
      · rw [if_pos hg] at h
        exact Option.noConfusion h
      · rw [if_neg hg] at h
        rcases hout : tx.output with _ | ⟨o0, rest⟩
        all_goals rw [hout] at h
        all_goals dsimp only at h
        · exact Option.noConfusion h
        · by_cases hs : o0.script_pubkey ≠ payout_script
          · rw [if_pos hs] at h
            exact Option.noConfusion h
          · rw [if_neg hs] at h
            by_cases ha : rest.any (fun o => decide (o.value ≠ 0)) = true
            · rw [if_pos ha] at h
              exact Option.noConfusion h
            · rw [if_neg ha] at h
              rcases hin : tx.input with _ | ⟨i0, itl⟩
              · rw [hin] at h
                exact Option.noConfusion h
              · rcases itl with _ | ⟨i1, itl'⟩
                · rw [hin] at h
                  dsimp only at h
                  by_cases hl : i0.script_sig.length < 8
                  · rw [if_pos hl] at h
                    exact Option.noConfusion h
                  · rw [if_neg hl] at h
                    rcases hget : alist_get
                        (slice_to_le64 (i0.script_sig.drop (i0.script_sig.length - 8)))
                        client_ids with _ | user_id
                    all_goals rw [hget] at h
                    · exact Option.noConfusion h
                    · refine ⟨i0, o0, rest, rfl, rfl, not_not.mp hs, ?_, ?_, by omega, ?_⟩
                      · cases h
                        rfl
                      · intro o ho
                        simp only [List.any_eq_true, decide_eq_true_eq, not_exists,
                          not_and, not_not] at ha
                        exact ha o ho
                      · cases h
                        exact hget
                · rw [hin] at h
                  exact Option.noConfusion h
    · rintro ⟨i0, o0, rest, hin, hout, hs, hp, hzero, hlen, hget⟩
      subst hp
      unfold check_coinbase_tx
      rw [hin, hout]
      rw [if_neg (by simp)]
      dsimp only
      rw [if_neg (by simp [hs]), if_neg (by simpa using hzero), if_neg (by omega), hget]
  · intro env st share hv hc hnone
    unfold handleShare
    rw [if_neg (not_or.mpr ⟨hv, hc⟩), hnone]

/-- Witness for C5: the concrete well-formed coinbase passes the policy, and
a coinbase with no inputs is answered ShareRejected BadPayoutInfo. -/
theorem c5_coinbase_policy_witness :
    check_coinbase_tx st0.client_ids envStub.payout_script cbTx0 = some (5, [42]) ∧
    handleShare envStub st0 { shareMsg0 with coinbase_tx := { input := [], output := [] } } =
      .ok [] [OutMsg.ShareRejected [1] [2] .BadPayoutInfo] st0 := by
  constructor
  · exact (c5_coinbase_policy.1 st0.client_ids envStub.payout_script cbTx0 5 [42]).mpr
      ⟨{ script_sig := [1, 2, 3, 4, 5, 6, 7, 8] }, { value := 5, script_pubkey := [9] }, [],
        rfl, rfl, rfl, rfl, by intro o ho; exact absurd ho (List.not_mem_nil o),
        by decide, by decide⟩
  · exact c5_coinbase_policy.2 envStub st0
      { shareMsg0 with coinbase_tx := { input := [], output := [] } }
      (by decide) (by decide) (by decide)

/-! ### Claim C8: auth and initial difficulty -/

/-- The UserAuth info of the spec's scenario 3: user "alice", auth "x",
suggested target with 50 leading zeros, minimum target with 40. -/
def infoAlice : UserAuthInfo :=
  { user_id := [97, 108, 105, 99, 101], user_auth := [120],
    suggested_target := leading_0s_to_target 50,
    minimum_target := leading_0s_to_target 40 }

/-- The user the registration actually creates for infoAlice: min_target =
41 and cur_target = 51 (one leading zero beyond the suggested target). -/
def aliceUser : PerUser :=
  { client_id := 0, user_id := [97, 108, 105, 99, 101], min_target := 41,
    cur_target := 51, accepted_shares := 0 }

/-- Counterexample for C8: the initial ShareDifficulty for a suggested
target of 50 leading zeros carries leading_0s_to_target 51 (the server adds
one to the suggested leading-zero count), not leading_0s_to_target 50 as
the claim states. -/
theorem c8_counterexample :
    handleUserAuth envStub stReady infoAlice =
      .ok []
        [OutMsg.AcceptUserAuth [97, 108, 105, 99, 101] 1000 ([83] ++ le64_to_array 0),
         OutMsg.ShareDifficulty [97, 108, 105, 99, 101] 1000
           (leading_0s_to_target 51) (leading_0s_to_target 59)]
        { stReady with
            max_client_id := 1,
            client_ids := [(0, [97, 108, 105, 99, 101])],
            connection_clients := [([97, 108, 105, 99, 101], aliceUser)] } ∧
    leading_0s_to_target 51 ≠ leading_0s_to_target 50 := by
  constructor
  · decide
  · decide

/-- Claim C8 (amended): on a fresh-counter connection with an allowing auth
predicate, infoAlice is answered AcceptUserAuth with coinbase suffix
server_id plus le64(0), followed by ShareDifficulty with share target
leading_0s_to_target 51 and weak-block target leading_0s_to_target 59
(the engine uses leading_zeros(suggested)+1 = 51, not 50). -/
theorem c8_auth_initial_difficulty :
    ∀ (env : Env) (ids : List (Nat × Bytes)) (lwb : Option (List Bytes)),
      env.check_user_auth infoAlice.user_id infoAlice.user_auth = true →
      handleUserAuth env
        { client_version := some 1, max_client_id := 0, connection_clients := [],
          client_ids := ids, last_weak_block := lwb } infoAlice =
        .ok []
          [OutMsg.AcceptUserAuth [97, 108, 105, 99, 101] env.timestamp
             (env.server_id ++ le64_to_array 0),
           OutMsg.ShareDifficulty [97, 108, 105, 99, 101] env.timestamp
             (leading_0s_to_target 51) (leading_0s_to_target 59)]
          { client_version := some 1, max_client_id := 1,
            connection_clients := [([97, 108, 105, 99, 101], aliceUser)],
            client_ids := (0, [97, 108, 105, 99, 101]) :: ids,
            last_weak_block := lwb } := by
  intro env ids lwb hauth
  unfold handleUserAuth
  rw [if_neg (by simp), if_neg (by simp [alist_get]), if_pos hauth]
  rfl

/-- Witness for C8: the concrete allowing environment produces exactly the
amended responses. -/
theorem c8_auth_initial_difficulty_witness :
    handleUserAuth envStub
      { client_version := some 1, max_client_id := 0, connection_clients := [],
        client_ids := [], last_weak_block := none } infoAlice =
      .ok []
        [OutMsg.AcceptUserAuth [97, 108, 105, 99, 101] envStub.timestamp
           (envStub.server_id ++ le64_to_array 0),
         OutMsg.ShareDifficulty [97, 108, 105, 99, 101] envStub.timestamp
           (leading_0s_to_target 51) (leading_0s_to_target 59)]
        { client_version := some 1, max_client_id := 1,
          connection_clients := [([97, 108, 105, 99, 101], aliceUser)],
          client_ids := [(0, [97, 108, 105, 99, 101])],
          last_weak_block := none } :=
  c8_auth_initial_difficulty envStub [] none rfl

/-! ### Claim C9: FreshConnect dispatch -/

/-- Counterexample for C9: a VendorMessage received in the FreshConnect
state is ignored (the handler continues with no output), not dropped,
contradicting the claim that every inbound message other than
ProtocolSupport — including VendorMessage — drops the connection. -/
theorem c9_counterexample :
    handleMessage envStub stFresh (.VendorMessage [7]) = .ok [] [] stFresh ∧
    HandlerResult.ok [] [] stFresh ≠ .drop := by
  constructor
  · rfl
  · decide

/-- Claim C9 (amended): in the FreshConnect state every inbound message
other than ProtocolSupport and VendorMessage drops the connection, and a
VendorMessage is ignored (no output, state unchanged) in every state. -/
theorem c9_fresh_connect_dispatch :
    (∀ (env : Env) (st : ConnState) (msg : PoolMessage),
        st.client_version = none → st.connection_clients = [] →
        (∀ a b c, msg ≠ .ProtocolSupport a b c) →
        (∀ v, msg ≠ .VendorMessage v) →
        handleMessage env st msg = .drop)
    ∧ (∀ (env : Env) (st : ConnState) (v : Bytes),
        handleMessage env st (.VendorMessage v) = .ok [] [] st) := by
  constructor
  · intro env st msg hv hc hps hvm
    cases msg with
    | ProtocolSupport a b c => exact absurd rfl (hps a b c)
    | ProtocolVersion a b => rfl
    | UserAuth info => simp [handleMessage, handleUserAuth, hv]
    | PayoutInfo a => rfl
    | AcceptUserAuth a => rfl
    | RejectUserAuth a => rfl
    | DropUser uid => simp [handleMessage, handleDropUser, hc, alist_get]
    | ShareDifficulty a => rfl
    | Share s => simp [handleMessage, handleShare, hv]
    | WeakBlock sk => simp [handleMessage, handleWeakBlock, hv]
    | WeakBlockStateReset => rfl
    | ShareAccepted a b => rfl
    | ShareRejected a b => rfl
    | NewPoolServer a => rfl
    | VendorMessage v => exact absurd rfl (hvm v)
  · intro env st v
    rfl

/-- Witness for C9: a WeakBlockStateReset in FreshConnect drops, and a
VendorMessage on a live connection is ignored. -/
theorem c9_fresh_connect_dispatch_witness :
    handleMessage envStub stFresh .WeakBlockStateReset = .drop ∧
    handleMessage envStub st0 (.VendorMessage [7, 7]) = .ok [] [] st0 :=
  ⟨c9_fresh_connect_dispatch.1 envStub stFresh .WeakBlockStateReset rfl rfl
      (fun _ _ _ h => PoolMessage.noConfusion h)
      (fun _ h => PoolMessage.noConfusion h),
   c9_fresh_connect_dispatch.2 envStub st0 [7, 7]⟩

/-! ### Claim C10: empty WeakBlock sketch -/

/-- Claim C10: a WeakBlock whose sketch.txn is empty makes the handler drop
the connection silently: no ShareRejected, no WeakBlockStateReset, and no
state change (the drop result carries no outbound message and no state). -/
theorem c10_empty_weak_block_drops :
    ∀ (env : Env) (st : ConnState) (sketch : WeakBlockSketch),
      sketch.txn = [] → handleWeakBlock env st sketch = .drop := by
  intro env st sketch h
  unfold handleWeakBlock
  rw [h]
  split <;> rfl

/-- Witness for C10: the concrete empty sketch on a live connection drops. -/
theorem c10_empty_weak_block_drops_witness :
    handleWeakBlock envStub st0 sketchEmpty = .drop :=
  c10_empty_weak_block_drops envStub st0 sketchEmpty rfl

end MiningPool
